import Mathlib

/-!
Verification of the merge/deduplication and training-analysis pipeline of
`sync_strava.py`.

Shallow embedding conventions:
* Python floats are modelled as exact rationals (`ℚ`); the Riegel formula,
  which uses a non-integer exponent, is modelled over the reals (`ℝ`).
* Python `round` (banker's rounding, half to even) is modelled by `rhe`
  (round half even) and the fixed-precision variants `round1`, `round2`.
* The `avg_hr` field, which the script stores as either a float or the empty
  string `""`, is modelled as `Option ℚ` (`none` = `""`).  Python truthiness
  of that field (`""` and `0.0` are falsy) is `hrTruthy`.
* Python dicts keyed by activity id are modelled as association lists in
  insertion order; `sorted` (a stable sort) is modelled by `List.insertionSort`.
* Calendar dates are modelled by their proleptic-Gregorian ordinal (`ℤ`),
  as produced by `toOrdinal`; `datetime.date` subtraction is ordinal
  subtraction.
-/

namespace SyncStrava

/-- Round half to even (Python `round` with `ndigits = None`): nearest integer,
ties go to the even neighbour. -/
def rhe (q : ℚ) : ℤ :=
  if q - ⌊q⌋ < 1/2 then ⌊q⌋
  else if 1/2 < q - ⌊q⌋ then ⌊q⌋ + 1
  else if 2 ∣ ⌊q⌋ then ⌊q⌋ else ⌊q⌋ + 1

/-- Python `round(q, 1)`. -/
def round1 (q : ℚ) : ℚ := (rhe (q * 10) : ℚ) / 10

/-- Python `round(q, 2)`. -/
def round2 (q : ℚ) : ℚ := (rhe (q * 100) : ℚ) / 100

/-- `TARGET_SECS = 9300` (line 25). -/
def TARGET_SECS : ℤ := 9300

/-- `TARGET_DIST_M = 42195` (line 26). -/
def TARGET_DIST_M : ℚ := 42195

/-- `HM_PB_SECS = 4380` (line 27). -/
def HM_PB_SECS : ℚ := 4380

/-- `HM_DIST_M = 21097.5` (line 28). -/
def HM_DIST_M : ℚ := 21097.5

/-- Proleptic-Gregorian day ordinal of a calendar date (the standard
days-from-civil computation, used to model `datetime.date` subtraction;
only differences of ordinals are ever used). -/
def toOrdinal (y m d : ℤ) : ℤ :=
  let y' := if m ≤ 2 then y - 1 else y
  let era := y' / 400
  let yoe := y' - era * 400
  let mp := if 2 < m then m - 3 else m + 9
  let doy := (153 * mp + 2) / 5 + d - 1
  let doe := yoe * 365 + yoe / 4 - yoe / 100 + doy
  era * 146097 + doe

/-- `PLAN_START = date(2025, 12, 22)` (line 24), as an ordinal. -/
def PLAN_START : ℤ := toOrdinal 2025 12 22

/-- `plan_week` (lines 168-174): 1-based training week of a date, `none`
outside weeks 1..18 or before the plan start.  The date is given by its
ordinal; `(d - PLAN_START).days` is ordinal subtraction, and Python `// 7`
is floor division, which agrees with `Int` division for the nonnegative
operands guarded here. -/
def plan_week (dateOrd : ℤ) : Option ℤ :=
  if dateOrd - PLAN_START < 0 then none
  else if 1 ≤ (dateOrd - PLAN_START) / 7 + 1 ∧ (dateOrd - PLAN_START) / 7 + 1 ≤ 18
  then some ((dateOrd - PLAN_START) / 7 + 1)
  else none

/-- Canonical activity record (the dict shape built by `norm_api` and
`parse_export`, lines 89-97 and 119-126). -/
structure ActivityRecord where
  activity_id : String
  date : ℤ
  name : String
  distance_km : ℚ
  moving_secs : ℤ
  avg_hr : Option ℚ
deriving DecidableEq

/-- Python truthiness of the stored `avg_hr` value: the empty string (`none`)
and the float `0.0` are falsy, every other float is truthy. -/
def hrTruthy : Option ℚ → Bool
  | none => false
  | some x => if x = 0 then false else true

/-- A raw Strava API activity object, restricted to the fields `norm_api`
reads.  `average_heartrate` distinguishes an absent key (`none`) from a JSON
`null` value (`some none`) and from a number (`some (some x)`); `name`,
`distance` and `moving_time` are read with `.get` defaults. -/
structure ApiActivity where
  id : String
  start_date_local : ℤ
  name : Option String
  distance : Option ℚ
  moving_time : Option ℤ
  average_heartrate : Option (Option ℚ)
deriving DecidableEq

/-- `norm_api` (lines 89-97).  `a.get("average_heartrate") or ""` maps an
absent key, a `null` value and the number `0` all to `""` (= `none`). -/
def norm_api (a : ApiActivity) : ActivityRecord :=
  { activity_id := a.id
    date := a.start_date_local
    name := a.name.getD ""
    distance_km := round2 (a.distance.getD 0 / 1000)
    moving_secs := a.moving_time.getD 0
    avg_hr :=
      match a.average_heartrate with
      | some (some x) => if x = 0 then none else some x
      | _ => none }

/-- The list of activity ids of a master list (the dict keys, in insertion
order). -/
def ids (m : List ActivityRecord) : List String :=
  m.map (fun v => v.activity_id)

/-- Python dict insertion `master[r["activity_id"]] = r.copy()` on an
insertion-ordered association list: an existing key keeps its position and
gets the new value, a fresh key is appended (used by the export seeding loop,
lines 137-138, and the API fallback insert, line 157). -/
def dictInsert (m : List ActivityRecord) (r : ActivityRecord) : List ActivityRecord :=
  if r.activity_id ∈ ids m then
    m.map (fun v => if v.activity_id = r.activity_id then r else v)
  else m ++ [r]

/-- The fuzzy deduplication key `(r["date"], round(r["distance_km"], 1))`
(lines 147 and 150). -/
def fkey (v : ActivityRecord) : ℤ × ℚ := (v.date, round1 v.distance_km)

/-- Update the first element of a list satisfying `p` (the
`next(v for v in master.values() if ...)` match of lines 148-152, which is
then mutated in place). -/
def updateFirst (p : ActivityRecord → Prop) [DecidablePred p]
    (f : ActivityRecord → ActivityRecord) : List ActivityRecord → List ActivityRecord
  | [] => []
  | v :: vs => if p v then f v :: vs else v :: updateFirst p f vs

/-- Processing of one API record by the merge loop (lines 140-157): on an id
match only the HR may be overwritten (and only when the API HR is truthy);
otherwise the first record matching the fuzzy key gets the HR update; with no
match at all the record is inserted under its own id. -/
def apiStep (m : List ActivityRecord) (r : ActivityRecord) : List ActivityRecord :=
  if r.activity_id ∈ ids m then
    if hrTruthy r.avg_hr then
      m.map (fun v => if v.activity_id = r.activity_id then { v with avg_hr := r.avg_hr } else v)
    else m
  else if ∃ v ∈ m, fkey v = fkey r then
    if hrTruthy r.avg_hr then
      updateFirst (fun v => fkey v = fkey r) (fun v => { v with avg_hr := r.avg_hr }) m
    else m
  else m ++ [r]

/-- `merge` (lines 130-159): seed the master dict with the export rows, fold
the API rows through `apiStep`, and return the values sorted by date
(`sorted` is stable; `List.insertionSort` is a stable sort). -/
def merge (export_rows api_rows : List ActivityRecord) : List ActivityRecord :=
  List.insertionSort (fun a b => a.date ≤ b.date)
    (api_rows.foldl apiStep (export_rows.foldl dictInsert []))

/-- The qualifying-run filter of `analyse` (lines 182-185): truthy HR,
positive moving time, distance at least 5 km. -/
def qualifies (r : ActivityRecord) : Bool :=
  hrTruthy r.avg_hr && decide (0 < r.moving_secs) && decide ((5 : ℚ) ≤ r.distance_km)

/-- The float value of a (truthy) stored HR, `float(r["avg_hr"])`. -/
def hrValue (r : ActivityRecord) : ℚ := r.avg_hr.getD 0

/-- Python `max(iterable, default=dflt)`: the default is returned only when
the iterable is empty. -/
def maxWithDefault (l : List ℚ) (dflt : ℚ) : ℚ :=
  match l with
  | [] => dflt
  | x :: xs => xs.foldl max x

/-- `max_avg_hr` (line 242): maximum average HR over qualifying runs, with
fallback 175. -/
def max_avg_hr (rows : List ActivityRecord) : ℚ :=
  maxWithDefault ((rows.filter qualifies).map hrValue) 175

/-- `est_max_hr = max_avg_hr * 1.12` (line 243). -/
def est_max_hr (rows : List ActivityRecord) : ℚ := max_avg_hr rows * 1.12

/-- `red_zone_hr = round(est_max_hr * 0.90, 1)` (line 244). -/
def red_zone_hr (rows : List ActivityRecord) : ℚ := round1 (est_max_hr rows * 0.90)

/-- The week buckets `wk_ae` in sorted week order (lines 203-210 build the
dict in sorted key order, and line 213 sorts the keys).  A bucket is a pair
(week, stored per-week mean efficiency); the trend computation reads only the
`"ae"` entry. -/
def wkSorted (wkae : List (ℤ × ℚ)) : List (ℤ × ℚ) :=
  List.insertionSort (fun a b => a.1 ≤ b.1) wkae

/-- `mid = len(wks) // 2` (line 217). -/
def aeMid (wkae : List (ℤ × ℚ)) : ℕ := (wkSorted wkae).length / 2

/-- `first_ae` (line 218): mean stored efficiency over the first half of the
sorted weeks. -/
def aeFirstAvg (wkae : List (ℤ × ℚ)) : ℚ :=
  (((wkSorted wkae).take (aeMid wkae)).map Prod.snd).sum / (aeMid wkae : ℚ)

/-- `second_ae` (line 219): mean stored efficiency over the second half of
the sorted weeks. -/
def aeSecondAvg (wkae : List (ℤ × ℚ)) : ℚ :=
  (((wkSorted wkae).drop (aeMid wkae)).map Prod.snd).sum
    / (((wkSorted wkae).length - aeMid wkae : ℕ) : ℚ)

/-- `ae_pct = round((second_ae - first_ae) / first_ae * 100, 1)` (line 220). -/
def aePct (wkae : List (ℤ × ℚ)) : ℚ :=
  round1 ((aeSecondAvg wkae - aeFirstAvg wkae) / aeFirstAvg wkae * 100)

/-- The trend classification of `analyse` (lines 213-223): the pair
`(ae_trend, ae_trend_pct)`. -/
def ae_trend (wkae : List (ℤ × ℚ)) : String × Option ℚ :=
  if 2 ≤ (wkSorted wkae).length then
    (if 1 < aePct wkae then "improving"
     else if aePct wkae < -1 then "declining"
     else "stable", some (aePct wkae))
  else ("insufficient data", none)

/-- `mp_speed = TARGET_DIST_M / TARGET_SECS` (line 228). -/
def mp_speed : ℚ := TARGET_DIST_M / (TARGET_SECS : ℚ)

/-- The least-squares denominator `denom = n * sx2 - sx * sx` (line 235) over
the pooled (speed, HR) points. -/
def ls_denom (pts : List (ℚ × ℚ)) : ℚ :=
  (pts.length : ℚ) * (pts.map (fun p => p.1 ^ 2)).sum - (pts.map Prod.fst).sum * (pts.map Prod.fst).sum

/-- `hr_at_mp` (lines 226-239): ordinary least-squares fit of HR against
speed over the pooled points, evaluated at marathon-pace speed and rounded to
1 decimal; `none` with fewer than 3 points or a zero denominator (Python
`if denom:` is truthiness, i.e. `denom ≠ 0`). -/
def hr_at_mp (pts : List (ℚ × ℚ)) : Option ℚ :=
  if 3 ≤ pts.length then
    if ls_denom pts = 0 then none
    else
      let a := ((pts.length : ℚ) * (pts.map (fun p => p.1 * p.2)).sum
        - (pts.map Prod.fst).sum * (pts.map Prod.snd).sum) / ls_denom pts
      let b := ((pts.map Prod.snd).sum - a * (pts.map Prod.fst).sum) / (pts.length : ℚ)
      some (round1 (a * mp_speed + b))
  else none

/-- `hr_buffer = round(red_zone_hr - hr_at_mp, 1) if hr_at_mp else None`
(line 245).  The guard is Python truthiness of `hr_at_mp`: both `None` and
the float `0.0` yield `None`. -/
def hr_buffer (redZone : ℚ) (hrAtMp : Option ℚ) : Option ℚ :=
  match hrAtMp with
  | none => none
  | some x => if x = 0 then none else some (round1 (redZone - x))

/-- `build_status` status bucket (lines 292-309): classification of
`delta = TARGET_SECS - pred_secs` into the four status strings. -/
def build_status_bucket (pred_secs : ℤ) : String :=
  if 180 < TARGET_SECS - pred_secs then "AHEAD"
  else if -60 ≤ TARGET_SECS - pred_secs then "ON TRACK"
  else if -300 ≤ TARGET_SECS - pred_secs then "CLOSE"
  else "OFF PACE"

open scoped Classical in
/-- Round half to even over the reals (Python `round` applied to the float
result of `predict`, line 283). -/
noncomputable def rheR (x : ℝ) : ℤ :=
  if x - ⌊x⌋ < 1/2 then ⌊x⌋
  else if 1/2 < x - ⌊x⌋ then ⌊x⌋ + 1
  else if 2 ∣ ⌊x⌋ then ⌊x⌋ else ⌊x⌋ + 1

/-- `riegel` (lines 176-177): `t1 * (d2 / d1) ** 1.06`, over the reals since
the exponent is not an integer. -/
noncomputable def riegel (t1_secs d1_m d2_m : ℝ) : ℝ :=
  t1_secs * (d2_m / d1_m) ^ (1.06 : ℝ)

/-- The value Python `analysis.get("ae_trend_pct") or 0` (line 279): `None`
and the float `0.0` are both replaced by `0`. -/
def orZero : Option ℚ → ℚ
  | none => 0
  | some p => if p = 0 then 0 else p

/-- `predict` (lines 269-283) as a function of the trend percentage: Riegel
baseline from the fixed HM reference plus the clamped AE modifier
`max(-90, min(90, -ae_pct * 15))`, rounded to an integer. -/
noncomputable def predict (ae_trend_pct : Option ℚ) : ℤ :=
  let base := riegel (HM_PB_SECS : ℝ) (HM_DIST_M : ℝ) (TARGET_DIST_M : ℝ)
  let modifier : ℝ := max (-90) (min 90 (-(orZero ae_trend_pct : ℝ) * 15))
  rheR (base + modifier)

/-- Modelled from the spec (section 4.5): predicted time = Riegel baseline
`t1 * (d2/d1) ^ 1.06` on the half-marathon reference, plus a modifier of
-15 seconds per +1% of trend clamped to the range -90..+90 seconds, rounded
to an integer; a missing trend percentage contributes zero adjustment. -/
noncomputable def predictSpec (ae_trend_pct : Option ℚ) : ℤ :=
  rheR ((HM_PB_SECS : ℝ) * ((TARGET_DIST_M : ℝ) / (HM_DIST_M : ℝ)) ^ (1.06 : ℝ)
    + min 90 (max (-90) (-15 * ((ae_trend_pct.getD 0 : ℚ) : ℝ))))

/-- Concrete export row for the end-to-end example of the spec: id "A",
date 2025-12-22, 10.0 km, 2400 s, no HR. -/
def exportRowA : ActivityRecord := ⟨"A", toOrdinal 2025 12 22, "", 10, 2400, none⟩

/-- Concrete raw API activity for the end-to-end example: id "B", the same
local start date, distance 10005 m, moving time 2401 s, average HR 150. -/
def apiActB : ApiActivity :=
  ⟨"B", toOrdinal 2025 12 22, some "", some 10005, some 2401, some (some 150)⟩

/-- An export record with id "E" and HR 100 (counterexample/witness input). -/
def exportE : ActivityRecord := ⟨"E", 0, "run", 10, 2400, some 100⟩

/-- An API record with the same id "E" and HR 150. -/
def apiE1 : ActivityRecord := ⟨"E", 0, "api1", 10, 2401, some 150⟩

/-- A second API record with the same id "E" and HR 160. -/
def apiE2 : ActivityRecord := ⟨"E", 0, "api2", 10, 2402, some 160⟩

/-- Two API records with distinct ids whose fuzzy keys coincide: same date,
distances 10.0 and 10.04 both round to 10.0. -/
def apiB1 : ActivityRecord := ⟨"B1", 0, "", 10, 100, some 1⟩

/-- See `apiB1`. -/
def apiB2 : ActivityRecord := ⟨"B2", 0, "", 10.04, 100, some 2⟩

/-- Three qualifying (speed, HR) points lying exactly on the line
`hr = 10 * (speed - mp_speed)`, so that the fitted HR at marathon pace is
exactly 0. -/
def ptsZero : List (ℚ × ℚ) := [(5, 287/62), (6, 907/62), (7, 1527/62)]

/-- An API activity whose average-heartrate key is absent. -/
def apiActNoHR : ApiActivity := ⟨"X", 0, none, none, none, none⟩

/-- A record with absent HR (witness input). -/
def recNoHR : ActivityRecord := ⟨"X", 0, "", 0, 0, none⟩

/-! ### Helper lemmas about the merge machinery -/

lemma updateFirst_length (p : ActivityRecord → Prop) [DecidablePred p]
    (f : ActivityRecord → ActivityRecord) (m : List ActivityRecord) :
    (updateFirst p f m).length = m.length := by
  induction m with
  | nil => rfl
  | cons v vs ih =>
    by_cases h : p v <;> simp [updateFirst, h, ih]

lemma updateFirst_ids (p : ActivityRecord → Prop) [DecidablePred p] (hr : Option ℚ)
    (m : List ActivityRecord) :
    ids (updateFirst p (fun v => { v with avg_hr := hr }) m) = ids m := by
  induction m with
  | nil => rfl
  | cons v vs ih =>
    by_cases h : p v
    · simp [updateFirst, h, ids]
    · simp only [updateFirst, if_neg h, ids, List.map_cons] at ih ⊢
      rw [ih]

lemma ids_dictInsert_of_mem {m : List ActivityRecord} {r : ActivityRecord}
    (h : r.activity_id ∈ ids m) : ids (dictInsert m r) = ids m := by
  unfold dictInsert
  rw [if_pos h]
  unfold ids
  rw [List.map_map]
  apply List.map_congr_left
  intro v _
  by_cases hv : v.activity_id = r.activity_id <;> simp [hv]

lemma ids_dictInsert_of_not_mem {m : List ActivityRecord} {r : ActivityRecord}
    (h : r.activity_id ∉ ids m) : ids (dictInsert m r) = ids m ++ [r.activity_id] := by
  unfold dictInsert
  rw [if_neg h]
  simp [ids]

lemma ids_apiStep (m : List ActivityRecord) (r : ActivityRecord) :
    ids (apiStep m r) = ids m ∨
      (ids (apiStep m r) = ids m ++ [r.activity_id] ∧ r.activity_id ∉ ids m) := by
  unfold apiStep
  by_cases h1 : r.activity_id ∈ ids m
  · left
    rw [if_pos h1]
    by_cases ht : hrTruthy r.avg_hr
    · rw [if_pos ht]
      unfold ids
      rw [List.map_map]
      apply List.map_congr_left
      intro v _
      by_cases hv : v.activity_id = r.activity_id <;> simp [hv]
    · rw [if_neg ht]
  · rw [if_neg h1]
    by_cases h2 : ∃ v ∈ m, fkey v = fkey r
    · left
      rw [if_pos h2]
      by_cases ht : hrTruthy r.avg_hr
      · rw [if_pos ht]
        exact updateFirst_ids _ _ m
      · rw [if_neg ht]
    · right
      rw [if_neg h2]
      exact ⟨by simp [ids], h1⟩

lemma nodup_ids_dictInsert {m : List ActivityRecord} (r : ActivityRecord)
    (h : (ids m).Nodup) : (ids (dictInsert m r)).Nodup := by
  by_cases hm : r.activity_id ∈ ids m
  · rw [ids_dictInsert_of_mem hm]; exact h
  · rw [ids_dictInsert_of_not_mem hm]
    simp [List.nodup_append, h, hm]

lemma nodup_ids_apiStep {m : List ActivityRecord} (r : ActivityRecord)
    (h : (ids m).Nodup) : (ids (apiStep m r)).Nodup := by
  rcases ids_apiStep m r with heq | ⟨heq, hni⟩
  · rw [heq]; exact h
  · rw [heq]; simp [List.nodup_append, h, hni]

lemma dictInsert_length (m : List ActivityRecord) (r : ActivityRecord) :
    (dictInsert m r).length ≤ m.length + 1 := by
  unfold dictInsert
  split_ifs <;> simp

lemma apiStep_length (m : List ActivityRecord) (r : ActivityRecord) :
    (apiStep m r).length ≤ m.length + 1 := by
  unfold apiStep
  split_ifs <;> simp [updateFirst_length]

lemma foldl_dictInsert_length (es : List ActivityRecord) :
    ∀ m : List ActivityRecord, (es.foldl dictInsert m).length ≤ m.length + es.length := by
  induction es with
  | nil => intro m; simp
  | cons e es ih =>
    intro m
    have h1 := ih (dictInsert m e)
    have h2 := dictInsert_length m e
    simp only [List.foldl_cons, List.length_cons]
    omega

lemma foldl_apiStep_length (as : List ActivityRecord) :
    ∀ m : List ActivityRecord, (as.foldl apiStep m).length ≤ m.length + as.length := by
  induction as with
  | nil => intro m; simp
  | cons a as ih =>
    intro m
    have h1 := ih (apiStep m a)
    have h2 := apiStep_length m a
    simp only [List.foldl_cons, List.length_cons]
    omega

lemma nodup_ids_foldl_dictInsert (es : List ActivityRecord) :
    ∀ m : List ActivityRecord, (ids m).Nodup → (ids (es.foldl dictInsert m)).Nodup := by
  induction es with
  | nil => intro m h; exact h
  | cons e es ih =>
    intro m h
    exact ih (dictInsert m e) (nodup_ids_dictInsert e h)

lemma nodup_ids_foldl_apiStep (as : List ActivityRecord) :
    ∀ m : List ActivityRecord, (ids m).Nodup → (ids (as.foldl apiStep m)).Nodup := by
  induction as with
  | nil => intro m h; exact h
  | cons a as ih =>
    intro m h
    exact ih (apiStep m a) (nodup_ids_apiStep a h)

lemma mem_ids_dictInsert_self (m : List ActivityRecord) (r : ActivityRecord) :
    r.activity_id ∈ ids (dictInsert m r) := by
  by_cases hm : r.activity_id ∈ ids m
  · rw [ids_dictInsert_of_mem hm]; exact hm
  · rw [ids_dictInsert_of_not_mem hm]; simp

lemma mem_ids_dictInsert_mono {m : List ActivityRecord} {x : String} (r : ActivityRecord)
    (h : x ∈ ids m) : x ∈ ids (dictInsert m r) := by
  by_cases hm : r.activity_id ∈ ids m
  · rw [ids_dictInsert_of_mem hm]; exact h
  · rw [ids_dictInsert_of_not_mem hm]; exact List.mem_append_left _ h

lemma mem_ids_apiStep_mono {m : List ActivityRecord} {x : String} (r : ActivityRecord)
    (h : x ∈ ids m) : x ∈ ids (apiStep m r) := by
  rcases ids_apiStep m r with heq | ⟨heq, _⟩
  · rw [heq]; exact h
  · rw [heq]; exact List.mem_append_left _ h

lemma mem_ids_foldl_dictInsert_mono (es : List ActivityRecord) :
    ∀ (m : List ActivityRecord) (x : String), x ∈ ids m → x ∈ ids (es.foldl dictInsert m) := by
  induction es with
  | nil => intro m x h; exact h
  | cons e es ih =>
    intro m x h
    exact ih (dictInsert m e) x (mem_ids_dictInsert_mono e h)

lemma mem_ids_foldl_apiStep_mono (as : List ActivityRecord) :
    ∀ (m : List ActivityRecord) (x : String), x ∈ ids m → x ∈ ids (as.foldl apiStep m) := by
  induction as with
  | nil => intro m x h; exact h
  | cons a as ih =>
    intro m x h
    exact ih (apiStep m a) x (mem_ids_apiStep_mono a h)

lemma mem_ids_foldl_dictInsert {es : List ActivityRecord} {r : ActivityRecord} (hr : r ∈ es) :
    ∀ m : List ActivityRecord, r.activity_id ∈ ids (es.foldl dictInsert m) := by
  induction es with
  | nil => cases hr
  | cons e es ih =>
    intro m
    rcases List.mem_cons.1 hr with heq | hmem
    · subst heq
      exact mem_ids_foldl_dictInsert_mono es (dictInsert m r) r.activity_id
        (mem_ids_dictInsert_self m r)
    · exact ih hmem (dictInsert m e)

lemma dedup_length_le_of_subset {l L : List String} (hsub : ∀ x ∈ l, x ∈ L)
    (hnd : L.Nodup) : l.dedup.length ≤ L.length := by
  rw [← List.card_toFinset l, ← List.toFinset_card_of_nodup hnd]
  apply Finset.card_le_card
  intro x hx
  rw [List.mem_toFinset] at hx ⊢
  exact hsub x hx

lemma foldl_dictInsert_eq_append (es : List ActivityRecord) :
    ∀ m : List ActivityRecord, (ids es).Nodup → (∀ x ∈ ids es, x ∉ ids m) →
      es.foldl dictInsert m = m ++ es := by
  induction es with
  | nil => intro m _ _; simp
  | cons e es ih =>
    intro m hnd hdisj
    have hem : e.activity_id ∉ ids m := hdisj e.activity_id (by simp [ids])
    have hstep : dictInsert m e = m ++ [e] := by
      unfold dictInsert
      rw [if_neg hem]
    have hnd' : (ids es).Nodup := by
      simp only [ids, List.map_cons, List.nodup_cons] at hnd
      exact hnd.2
    have hene : e.activity_id ∉ ids es := by
      simp only [ids, List.map_cons, List.nodup_cons] at hnd
      exact hnd.1
    have hdisj' : ∀ x ∈ ids es, x ∉ ids (m ++ [e]) := by
      intro x hx
      have hxm : x ∉ ids m := hdisj x (by simp [ids] at hx ⊢; tauto)
      have hxe : x ≠ e.activity_id := by
        intro heq
        exact hene (heq ▸ hx)
      have hids : ids (m ++ [e]) = ids m ++ [e.activity_id] := by simp [ids]
      rw [hids]
      simp only [List.mem_append, List.mem_singleton]
      rintro (hc | hc)
      · exact hxm hc
      · exact hxe hc
    rw [List.foldl_cons, hstep, ih (m ++ [e]) hnd' hdisj', List.append_assoc,
      List.singleton_append]

lemma updateFirst_mem_of_unique {p : ActivityRecord → Prop} [DecidablePred p]
    {f : ActivityRecord → ActivityRecord} {m : List ActivityRecord} {e : ActivityRecord}
    (he : e ∈ m) (hpe : p e) (huniq : ∀ v ∈ m, p v → v = e) :
    f e ∈ updateFirst p f m := by
  induction m with
  | nil => cases he
  | cons v vs ih =>
    by_cases hv : p v
    · have hve : v = e := huniq v (by simp) hv
      subst hve
      simp [updateFirst, hv]
    · have hne : e ≠ v := fun heq => hv (heq ▸ hpe)
      have he' : e ∈ vs := by
        rcases List.mem_cons.1 he with heq | hmem
        · exact absurd heq hne
        · exact hmem
      have huniq' : ∀ w ∈ vs, p w → w = e := fun w hw hpw =>
        huniq w (List.mem_cons_of_mem v hw) hpw
      simp [updateFirst, hv, ih he' huniq']

lemma clamp_minmax (x : ℝ) : max (-90) (min 90 x) = min 90 (max (-90) x) := by
  rw [max_def, min_def, max_def, min_def]
  split_ifs <;> first | rfl | linarith

/-! ### Claims -/

/-- C1 (counterexample): the claim says a delta of exactly −300 classifies as
OFF PACE; the code classifies it as CLOSE.  At predicted time 9600 s the
delta `TARGET_SECS - 9600` is exactly −300 and the bucket is "CLOSE". -/
theorem build_status_boundary_cex :
    build_status_bucket 9600 = "CLOSE" ∧ build_status_bucket 9600 ≠ "OFF PACE" := by
  constructor <;> decide

/-- C1 (amended): the Status Builder classifies `delta = TARGET_SECS − predicted`
into exactly one of four buckets: AHEAD iff delta > 180; ON TRACK iff
−60 ≤ delta ≤ 180 (so delta = 180 and delta = −60 are ON TRACK); CLOSE iff
−300 ≤ delta < −60 (inclusive lower bound, so delta = −300 is CLOSE);
OFF PACE iff delta < −300. -/
theorem build_status_boundaries (p : ℤ) :
    (build_status_bucket p = "AHEAD" ↔ 180 < TARGET_SECS - p) ∧
    (build_status_bucket p = "ON TRACK" ↔ -60 ≤ TARGET_SECS - p ∧ TARGET_SECS - p ≤ 180) ∧
    (build_status_bucket p = "CLOSE" ↔ -300 ≤ TARGET_SECS - p ∧ TARGET_SECS - p < -60) ∧
    (build_status_bucket p = "OFF PACE" ↔ TARGET_SECS - p < -300) := by
  unfold build_status_bucket
  split_ifs with h1 h2 h3 <;>
    refine ⟨?_, ?_, ?_, ?_⟩ <;> constructor <;> intro h <;>
      first
        | rfl
        | omega
        | (exact absurd h (by decide))

/-- C2 (counterexample): the output count can be smaller than the number of
unique ids in the API input.  With an empty export and two API records with
distinct ids but the same fuzzy key (same date, distances 10.0 and 10.04 both
rounding to 10.0), the second record is fuzzy-merged into the first and the
output has 1 record while the API input has 2 unique ids. -/
theorem merge_uniqueness_cex :
    (merge [] [apiB1, apiB2]).length
      < max ((ids ([] : List ActivityRecord)).dedup.length)
          ((ids [apiB1, apiB2]).dedup.length) := by
  have h1 : merge [] [apiB1, apiB2] = [{ apiB1 with avg_hr := some 2 }] := by
    norm_num [merge, apiB1, apiB2, apiStep, dictInsert, ids, fkey, hrTruthy, round1, rhe,
      updateFirst, List.insertionSort, List.orderedInsert]
  have h2 : (ids [apiB1, apiB2]).dedup.length = 2 := by decide
  have h3 : (ids ([] : List ActivityRecord)).dedup.length = 0 := by decide
  rw [h1, h2, h3]
  simp

/-- C2 (amended): in the merged output every record's id is unique; the
output count is at most the export count plus the API count; and the output
count is at least the number of unique ids in the export input (the bound by
the API input's unique ids fails, see the counterexample). -/
theorem merge_uniqueness (es as : List ActivityRecord) :
    (ids (merge es as)).Nodup ∧
    (merge es as).length ≤ es.length + as.length ∧
    (ids es).dedup.length ≤ (merge es as).length := by
  have hperm : List.Perm (merge es as) (as.foldl apiStep (es.foldl dictInsert [])) :=
    List.perm_insertionSort _ _
  have hnd : (ids (as.foldl apiStep (es.foldl dictInsert []))).Nodup :=
    nodup_ids_foldl_apiStep as _ (nodup_ids_foldl_dictInsert es [] (by simp [ids]))
  refine ⟨?_, ?_, ?_⟩
  · have hm : List.Perm (ids (merge es as)) (ids (as.foldl apiStep (es.foldl dictInsert []))) :=
      hperm.map _
    exact hm.nodup_iff.2 hnd
  · rw [hperm.length_eq]
    have h1 := foldl_apiStep_length as (es.foldl dictInsert [])
    have h2 := foldl_dictInsert_length es []
    simp only [List.length_nil] at h2
    omega
  · rw [hperm.length_eq]
    have hsub : ∀ x ∈ ids es, x ∈ ids (as.foldl apiStep (es.foldl dictInsert [])) := by
      intro x hx
      simp only [ids, List.mem_map] at hx
      obtain ⟨r, hr, hrx⟩ := hx
      subst hrx
      exact mem_ids_foldl_apiStep_mono as _ _ (mem_ids_foldl_dictInsert hr [])
    have hlen := dedup_length_le_of_subset hsub hnd
    calc (ids es).dedup.length ≤ (ids (as.foldl apiStep (es.foldl dictInsert []))).length := hlen
      _ = (as.foldl apiStep (es.foldl dictInsert [])).length := by simp [ids]

/-- C3 (counterexample): with one export record and two API records all
sharing id "E" and carrying non-empty HRs 150 and 160, the merged record's HR
is 160, not the HR of the first matching API record — so "the merged record's
HR equals the API record's HR" is false for the pair (exportE, apiE1) even
though they share an id and apiE1's HR is non-empty. -/
theorem merge_hr_overwrite_cex :
    exportE ∈ [exportE] ∧ apiE1 ∈ [apiE1, apiE2] ∧
    exportE.activity_id = apiE1.activity_id ∧ hrTruthy apiE1.avg_hr = true ∧
    ∀ r ∈ merge [exportE] [apiE1, apiE2],
      r.activity_id = exportE.activity_id → r.avg_hr ≠ apiE1.avg_hr := by
  refine ⟨by simp, by simp, rfl, by norm_num [apiE1, hrTruthy], ?_⟩
  have h : merge [exportE] [apiE1, apiE2] = [{ exportE with avg_hr := some 160 }] := by
    norm_num [merge, exportE, apiE1, apiE2, apiStep, dictInsert, ids, fkey, hrTruthy,
      round1, rhe, updateFirst, List.insertionSort, List.orderedInsert]
  rw [h]
  intro r hr _
  simp only [List.mem_singleton] at hr
  subst hr
  norm_num [exportE, apiE1]

/-- C3 (amended): for an export list with unique ids and a single API record
`a`, if export record `e` shares `a`'s id, or `a`'s id is absent from the
export and `e` is the unique fuzzy-key match of `a`, then the merged output
contains a record keeping `e`'s id, date, distance and name, whose HR is
`a`'s HR when the API HR is non-empty, and `e`'s HR otherwise.  (With several
matching API records the last one with a non-empty HR wins, so the original
per-pair claim fails; see the counterexample.) -/
theorem merge_hr_overwrite (es : List ActivityRecord) (e a : ActivityRecord)
    (hnd : (ids es).Nodup) (he : e ∈ es)
    (hmatch : e.activity_id = a.activity_id ∨
      (a.activity_id ∉ ids es ∧ fkey e = fkey a ∧ ∀ v ∈ es, fkey v = fkey a → v = e)) :
    ∃ r ∈ merge es [a],
      r.activity_id = e.activity_id ∧ r.date = e.date ∧ r.distance_km = e.distance_km ∧
      r.name = e.name ∧ r.avg_hr = (if hrTruthy a.avg_hr then a.avg_hr else e.avg_hr) := by
  have hseed : es.foldl dictInsert [] = es := by
    have h := foldl_dictInsert_eq_append es [] hnd (by intro x _; simp [ids])
    simpa using h
  have hstep : merge es [a] = List.insertionSort (fun x y => x.date ≤ y.date) (apiStep es a) := by
    unfold merge
    rw [hseed]
    rfl
  suffices hsuf : ∃ r ∈ apiStep es a,
      r.activity_id = e.activity_id ∧ r.date = e.date ∧ r.distance_km = e.distance_km ∧
      r.name = e.name ∧ r.avg_hr = (if hrTruthy a.avg_hr then a.avg_hr else e.avg_hr) by
    obtain ⟨r, hr, hprops⟩ := hsuf
    refine ⟨r, ?_, hprops⟩
    rw [hstep]
    exact (List.perm_insertionSort _ _).mem_iff.2 hr
  rcases hmatch with hid | ⟨hnotin, hkey, huniq⟩
  · have hin : a.activity_id ∈ ids es := by
      rw [← hid]
      simp only [ids, List.mem_map]
      exact ⟨e, he, rfl⟩
    unfold apiStep
    rw [if_pos hin]
    by_cases ht : hrTruthy a.avg_hr
    · rw [if_pos ht]
      refine ⟨{ e with avg_hr := a.avg_hr }, ?_, by simp, by simp, by simp, by simp,
        by simp [ht]⟩
      have hfe : { e with avg_hr := a.avg_hr }
          = (fun v => if v.activity_id = a.activity_id then { v with avg_hr := a.avg_hr } else v) e := by
        simp [hid]
      rw [hfe]
      exact List.mem_map_of_mem _ he
    · rw [if_neg ht]
      exact ⟨e, he, rfl, rfl, rfl, rfl, by simp [ht]⟩
  · unfold apiStep
    rw [if_neg hnotin, if_pos ⟨e, he, hkey⟩]
    by_cases ht : hrTruthy a.avg_hr
    · rw [if_pos ht]
      refine ⟨{ e with avg_hr := a.avg_hr }, ?_, by simp, by simp, by simp, by simp,
        by simp [ht]⟩
      exact updateFirst_mem_of_unique he hkey huniq
    · rw [if_neg ht]
      exact ⟨e, he, rfl, rfl, rfl, rfl, by simp [ht]⟩

/-- C3 (witness): the amended theorem applied to concrete single-match
inputs: one export record with id "E" and HR 100 and one API record with the
same id and HR 150. -/
theorem merge_hr_overwrite_witness :
    ∃ r ∈ merge [exportE] [apiE1],
      r.activity_id = exportE.activity_id ∧ r.date = exportE.date ∧
      r.distance_km = exportE.distance_km ∧ r.name = exportE.name ∧
      r.avg_hr = (if hrTruthy apiE1.avg_hr then apiE1.avg_hr else exportE.avg_hr) :=
  merge_hr_overwrite [exportE] exportE apiE1 (by decide) (by simp) (Or.inl rfl)

/-- C4 (counterexample): with no qualifying runs the code's estimated max HR
is 175 * 1.12 = 196 (the 175 fallback applies to the max observed average HR,
not to the estimate), and the red-zone threshold is 176.4, not
90% of 175 = 157.5. -/
theorem analyse_fallback_cex :
    est_max_hr [] ≠ 175 ∧ red_zone_hr [] ≠ 0.90 * 175 := by
  constructor <;>
    norm_num [est_max_hr, red_zone_hr, max_avg_hr, maxWithDefault, round1, rhe]

/-- C4 (amended): if no qualifying runs exist, the maximum observed average
HR falls back to the fixed 175 bpm, so the estimated max HR equals
175 * 1.12 = 196 bpm and the red-zone threshold equals
round(196 * 0.90, 1) = 176.4 bpm (90% of the scaled estimate). -/
theorem analyse_fallback (rows : List ActivityRecord) (h : rows.filter qualifies = []) :
    max_avg_hr rows = 175 ∧ est_max_hr rows = 196 ∧ red_zone_hr rows = 176.4 := by
  have h1 : max_avg_hr rows = 175 := by
    unfold max_avg_hr
    rw [h]
    rfl
  refine ⟨h1, ?_, ?_⟩
  · unfold est_max_hr
    rw [h1]
    norm_num
  · unfold red_zone_hr est_max_hr
    rw [h1]
    norm_num [round1, rhe]

/-- C4 (witness): the amended theorem applied to the empty record list. -/
theorem analyse_fallback_witness :
    max_avg_hr [] = 175 ∧ est_max_hr [] = 196 ∧ red_zone_hr [] = 176.4 :=
  analyse_fallback [] rfl

/-- C5: the week indexer returns `(date − plan start) / 7 + 1` (floor
division) whenever that value lies in 1..18; the plan start maps to week 1;
7 days later maps to week 2; dates before the plan start map to `none`; and
dates whose computed week is 19 or more map to `none`. -/
theorem plan_week_spec :
    (∀ d : ℤ, 1 ≤ (d - PLAN_START) / 7 + 1 → (d - PLAN_START) / 7 + 1 ≤ 18 →
      plan_week d = some ((d - PLAN_START) / 7 + 1)) ∧
    plan_week PLAN_START = some 1 ∧
    plan_week (PLAN_START + 7) = some 2 ∧
    (∀ d : ℤ, d < PLAN_START → plan_week d = none) ∧
    (∀ d : ℤ, 19 ≤ (d - PLAN_START) / 7 + 1 → plan_week d = none) := by
  refine ⟨?_, ?_, ?_, ?_, ?_⟩
  · intro d h1 h18
    unfold plan_week
    rw [if_neg (by omega), if_pos ⟨h1, h18⟩]
  · norm_num [plan_week]
  · norm_num [plan_week]
  · intro d hd
    unfold plan_week
    rw [if_pos (by omega)]
  · intro d h19
    unfold plan_week
    rw [if_neg (show ¬(d - PLAN_START < 0) by omega),
      if_neg (show ¬(1 ≤ (d - PLAN_START) / 7 + 1 ∧ (d - PLAN_START) / 7 + 1 ≤ 18) by omega)]

/-- C5 (witness): the general formula at 14 days after the start (week 3),
a day before the start (no week), and 126 days after the start (week 19,
so no week). -/
theorem plan_week_spec_witness :
    plan_week (PLAN_START + 14) = some ((PLAN_START + 14 - PLAN_START) / 7 + 1) ∧
    plan_week (PLAN_START - 1) = none ∧
    plan_week (PLAN_START + 126) = none :=
  ⟨plan_week_spec.1 (PLAN_START + 14) (by omega) (by omega),
   plan_week_spec.2.2.2.1 (PLAN_START - 1) (by omega),
   plan_week_spec.2.2.2.2 (PLAN_START + 126) (by omega)⟩

/-- C6: the trend is "insufficient data" with no percent value for fewer than
2 populated weeks; with at least 2 weeks (and a nonzero first-half average,
which Python's division requires) the classification is "improving" iff the
rounded percent change exceeds 1, "declining" iff it is below −1, "stable"
otherwise, and the percent value is published; and constant positive
efficiency across all weeks yields ("stable", 0.0). -/
theorem ae_trend_spec :
    (∀ w : List (ℤ × ℚ), w.length < 2 → ae_trend w = ("insufficient data", none)) ∧
    (∀ w : List (ℤ × ℚ), 2 ≤ w.length → aeFirstAvg w ≠ 0 →
      ((ae_trend w).1 = "improving" ↔ 1 < aePct w) ∧
      ((ae_trend w).1 = "declining" ↔ aePct w < -1) ∧
      ((ae_trend w).1 = "stable" ↔ -1 ≤ aePct w ∧ aePct w ≤ 1) ∧
      (ae_trend w).2 = some (aePct w)) ∧
    (∀ (w : List (ℤ × ℚ)) (c : ℚ), 2 ≤ w.length → 0 < c → (∀ p ∈ w, p.2 = c) →
      ae_trend w = ("stable", some 0)) := by
  refine ⟨?_, ?_, ?_⟩
  · intro w hw
    have hl : (wkSorted w).length = w.length :=
      (List.perm_insertionSort (fun a b : ℤ × ℚ => a.1 ≤ b.1) w).length_eq
    unfold ae_trend
    rw [if_neg (by omega)]
  · intro w h2 _
    have hl : (wkSorted w).length = w.length :=
      (List.perm_insertionSort (fun a b : ℤ × ℚ => a.1 ≤ b.1) w).length_eq
    unfold ae_trend
    rw [if_pos (by omega)]
    split_ifs with hgt hlt
    · exact ⟨iff_of_true rfl hgt,
        iff_of_false (by simp) (by intro hc; linarith),
        iff_of_false (by simp) (by rintro ⟨-, hb⟩; linarith),
        rfl⟩
    · exact ⟨iff_of_false (by simp) (by intro hc; linarith),
        iff_of_true rfl hlt,
        iff_of_false (by simp) (by rintro ⟨ha, -⟩; linarith),
        rfl⟩
    · exact ⟨iff_of_false (by simp) hgt,
        iff_of_false (by simp) hlt,
        iff_of_true rfl ⟨by linarith, by linarith⟩,
        rfl⟩
  · intro w c h2 hc hall
    have hperm := List.perm_insertionSort (fun a b : ℤ × ℚ => a.1 ≤ b.1) w
    have hl : (wkSorted w).length = w.length := hperm.length_eq
    have hrep : (wkSorted w).map Prod.snd = List.replicate w.length c := by
      apply List.eq_replicate_iff.2
      refine ⟨by simp [hl], ?_⟩
      intro b hb
      simp only [List.mem_map] at hb
      obtain ⟨p, hp, hpb⟩ := hb
      subst hpb
      exact hall p (hperm.mem_iff.1 hp)
    have hmid : aeMid w = w.length / 2 := by
      unfold aeMid
      rw [hl]
    have hmidle : aeMid w ≤ w.length := by omega
    have hmidpos : (aeMid w : ℚ) ≠ 0 := by
      have : aeMid w ≠ 0 := by omega
      exact_mod_cast this
    have hsecpos : ((w.length - aeMid w : ℕ) : ℚ) ≠ 0 := by
      have h' : w.length - aeMid w ≠ 0 := by omega
      exact_mod_cast h'
    have hfirst : aeFirstAvg w = c := by
      unfold aeFirstAvg
      rw [List.map_take, hrep, List.take_replicate, min_eq_left hmidle,
        List.sum_replicate, nsmul_eq_mul]
      exact mul_div_cancel_left₀ c hmidpos
    have hsecond : aeSecondAvg w = c := by
      unfold aeSecondAvg
      rw [List.map_drop, hrep, List.drop_replicate, List.sum_replicate, nsmul_eq_mul, hl]
      exact mul_div_cancel_left₀ c hsecpos
    have hpct : aePct w = 0 := by
      unfold aePct
      rw [hfirst, hsecond]
      norm_num [round1, rhe]
    unfold ae_trend
    rw [if_pos (by omega), hpct]
    norm_num

/-- C6 (witness): the three parts of the trend theorem at concrete inputs:
a single week (insufficient data), two distinct weeks (classification iff),
and two weeks of constant efficiency 2 (stable, 0.0). -/
theorem ae_trend_spec_witness :
    ae_trend [((1 : ℤ), (1 : ℚ))] = ("insufficient data", none) ∧
    ((ae_trend [((1 : ℤ), (1 : ℚ)), (2, 3)]).1 = "improving" ↔
      1 < aePct [((1 : ℤ), (1 : ℚ)), (2, 3)]) ∧
    ae_trend [((1 : ℤ), (2 : ℚ)), (2, 2)] = ("stable", some 0) :=
  ⟨ae_trend_spec.1 _ (by norm_num),
   (ae_trend_spec.2.1 _ (by norm_num)
     (by norm_num [aeFirstAvg, aeMid, wkSorted, List.insertionSort, List.orderedInsert])).1,
   ae_trend_spec.2.2 _ 2 (by norm_num) (by norm_num)
     (by intro p hp; fin_cases hp <;> rfl)⟩

/-- C7 (counterexample): three qualifying points lying exactly on a line
through zero at marathon-pace speed make the regression defined with value
0.0, yet the HR buffer is `none` (Python truthiness of `0.0`), so the buffer
is not undefined "exactly when" the regression is undefined. -/
theorem hr_buffer_cex :
    hr_at_mp ptsZero = some 0 ∧ (hr_at_mp ptsZero).isSome = true ∧
    hr_buffer 176.4 (hr_at_mp ptsZero) = none := by
  have h : hr_at_mp ptsZero = some 0 := by
    norm_num [hr_at_mp, ls_denom, ptsZero, mp_speed, TARGET_DIST_M, TARGET_SECS, round1, rhe]
  refine ⟨h, by rw [h]; rfl, by rw [h]; norm_num [hr_buffer]⟩

/-- C7 (amended): the HR-at-marathon-pace regression is defined iff there are
at least 3 pooled points and the least-squares denominator is nonzero (when
undefined it is an explicit `none`, never a division by zero); the HR buffer
is defined iff the regression is defined and its rounded value is nonzero
(Python's truthiness test also drops an exactly-zero prediction, see the
counterexample). -/
theorem hr_regression_definedness (pts : List (ℚ × ℚ)) (rz : ℚ) :
    ((hr_at_mp pts).isSome ↔ 3 ≤ pts.length ∧ ls_denom pts ≠ 0) ∧
    ((hr_buffer rz (hr_at_mp pts)).isSome ↔
      (hr_at_mp pts).isSome ∧ hr_at_mp pts ≠ some 0) := by
  constructor
  · unfold hr_at_mp
    split_ifs with h3 hd
    · simp [h3, hd]
    · simp [h3, hd]
    · simp [h3]
  · cases hmp : hr_at_mp pts with
    | none => simp [hr_buffer]
    | some x =>
      unfold hr_buffer
      by_cases hx : x = 0
      · subst hx
        simp
      · simp [hx]

/-- C8: the predicted finishing time equals the Riegel baseline
`t1 * (d2/d1) ^ 1.06` on the fixed half-marathon reference plus a modifier of
−15 seconds per +1% of trend clamped to −90..+90 seconds, rounded half-even
to an integer, with a missing trend percentage contributing zero adjustment
(`predictSpec` is the spec-side formulation; `predict` is the code). -/
theorem predict_refines_spec (o : Option ℚ) : predict o = predictSpec o := by
  have hoz : ((orZero o : ℚ) : ℝ) = ((o.getD 0 : ℚ) : ℝ) := by
    cases o with
    | none => rfl
    | some p =>
      by_cases hp : p = 0
      · subst hp
        simp [orZero]
      · simp [orZero, hp]
  have harg : (-((orZero o : ℚ) : ℝ) * 15 : ℝ) = -15 * ((o.getD 0 : ℚ) : ℝ) := by
    rw [hoz]
    ring
  simp only [predict, predictSpec, riegel]
  rw [clamp_minmax, harg]

/-- C9: the end-to-end example: two identical export rows with id "A"
(2025-12-22, 10.0 km, 2400 s, no HR) and one API activity with id "B"
(same date, 10005 m, 2401 s, HR 150) merge — via the fuzzy key
(2025-12-22, 10.0) — into exactly one record keeping the export identity
with HR 150, and that record's date maps to plan week 1. -/
theorem merge_end_to_end :
    merge [exportRowA, exportRowA] [norm_api apiActB]
      = [⟨"A", toOrdinal 2025 12 22, "", 10, 2400, some 150⟩] ∧
    plan_week (toOrdinal 2025 12 22) = some 1 := by
  constructor
  · norm_num [merge, norm_api, apiActB, exportRowA, dictInsert, apiStep, ids, fkey, hrTruthy,
      round2, round1, rhe, updateFirst, List.insertionSort, List.orderedInsert]
  · norm_num [plan_week, PLAN_START]

/-- C10: `norm_api` maps an absent average-heartrate key, a `null` value and
the number 0 all to an absent HR; a record with absent HR never qualifies for
HR-based analysis; and an API record with absent HR never changes any
existing record during a merge step (it is either ignored or appended). -/
theorem norm_api_hr_falsy :
    (∀ a : ApiActivity,
      a.average_heartrate = none ∨ a.average_heartrate = some none ∨
        a.average_heartrate = some (some 0) →
      (norm_api a).avg_hr = none) ∧
    (∀ r : ActivityRecord, r.avg_hr = none → qualifies r = false) ∧
    (∀ (m : List ActivityRecord) (r : ActivityRecord), r.avg_hr = none →
      apiStep m r = m ∨ apiStep m r = m ++ [r]) := by
  refine ⟨?_, ?_, ?_⟩
  · rintro a (h | h | h) <;> simp [norm_api, h]
  · intro r h
    simp [qualifies, hrTruthy, h]
  · intro m r h
    have ht : hrTruthy r.avg_hr = false := by simp [hrTruthy, h]
    unfold apiStep
    by_cases h1 : r.activity_id ∈ ids m
    · rw [if_pos h1, ht]
      simp
    · rw [if_neg h1]
      by_cases h2 : ∃ v ∈ m, fkey v = fkey r
      · rw [if_pos h2, ht]
        simp
      · rw [if_neg h2]
        right
        rfl

/-- C10 (witness): the three parts at concrete inputs: an API activity with
no average-heartrate key, and a record with absent HR against an empty
master list. -/
theorem norm_api_hr_falsy_witness :
    (norm_api apiActNoHR).avg_hr = none ∧ qualifies recNoHR = false ∧
    (apiStep [] recNoHR = [] ∨ apiStep [] recNoHR = [] ++ [recNoHR]) :=
  ⟨norm_api_hr_falsy.1 apiActNoHR (Or.inl rfl),
   norm_api_hr_falsy.2.1 recNoHR rfl,
   norm_api_hr_falsy.2.2 [] recNoHR rfl⟩

end SyncStrava
